import Mathlib

/-!
Shallow embedding of the pngme chunk codec (`src/chunk_type.rs`, `src/chunk.rs`)
and of the container operations of `src/png.rs`.

Bytes are modelled as `Nat` (with `< 256` domain hypotheses where the u32
reads matter), `u32` values as `Nat` with explicit `% 2 ^ 32` where the Rust
code truncates, strings as `List Char` together with their UTF-8 byte
sequences, and fallible Rust functions as `Except PngError`.  A Rust panic
(an `expect` call or an out-of-bounds slice index) is a distinct outcome,
`PngError.rustPanic`, since it is not a returned `Err`.
-/

namespace Pngme

/-- The reflected CRC-32/ISO-HDLC polynomial `0xEDB88320`, as used by the
`crc` crate's `CRC_32_ISO_HDLC` algorithm instantiated in `chunk.rs`. -/
def crcPoly : Nat := 0xEDB88320

/-- One bit step of the reflected CRC-32 computation. -/
def crcBitStep (c : Nat) : Nat :=
  if c % 2 = 1 then Nat.xor (c / 2) crcPoly else c / 2

/-- Folding one input byte into the running CRC-32 state. -/
def crcByteStep (c b : Nat) : Nat :=
  crcBitStep (crcBitStep (crcBitStep (crcBitStep
    (crcBitStep (crcBitStep (crcBitStep (crcBitStep (Nat.xor c b))))))))

/-- Model of `Crc::<u32>::new(&CRC_32_ISO_HDLC).checksum(bytes)`: initial state
`0xFFFFFFFF`, reflected input/output, final xor `0xFFFFFFFF`. -/
def crc32Checksum (data : List Nat) : Nat :=
  Nat.xor (data.foldl crcByteStep 0xFFFFFFFF) 0xFFFFFFFF

/-- Model of Rust `u32::to_be_bytes`. -/
def u32ToBeBytes (n : Nat) : List Nat :=
  [n / 2 ^ 24 % 256, n / 2 ^ 16 % 256, n / 2 ^ 8 % 256, n % 256]

/-- Model of Rust `u32::from_be_bytes` on a 4-byte slice. -/
def u32FromBeBytes (l : List Nat) : Nat :=
  match l with
  | [b0, b1, b2, b3] => b0 * 2 ^ 24 + b1 * 2 ^ 16 + b2 * 2 ^ 8 + b3
  | _ => 0

/-- Outcomes of the fallible operations.  The first five constructors model the
distinct `bail!` sites of the source; `rustPanic` models a Rust panic (an
`expect` call or an out-of-bounds slice index), which is not a returned `Err`
but an abort of the whole computation. -/
inductive PngError where
  /-- Error message "Length of the chunk is not enough to convert to Chunk". -/
  | tooShort : PngError
  /-- Error message "Invalid chunk type inputted". -/
  | invalidChunkType : PngError
  /-- Error message "The input bytes not equals to 4". -/
  | inputNotFourBytes : PngError
  /-- Error message "Invalid ascii input". -/
  | invalidAscii : PngError
  /-- Error message "Invalid crc". -/
  | crcMismatch : PngError
  /-- Error message "Not found" (spec: container removal / lookup miss). -/
  | notFound : PngError
  /-- A Rust panic with the given message. -/
  | rustPanic : String → PngError
deriving DecidableEq, Repr

/-! ## ChunkType (`src/chunk_type.rs`) -/

/-- The struct `ChunkType(u8, u8, u8, u8)`. -/
structure ChunkType where
  b0 : Nat
  b1 : Nat
  b2 : Nat
  b3 : Nat
deriving DecidableEq, Repr

/-- Method `ChunkType::bytes`. -/
def ChunkType.bytes (c : ChunkType) : List Nat :=
  [c.b0, c.b1, c.b2, c.b3]

/-- Method `ChunkType::is_valid_ascii`: every byte is in `65..=90` or
`97..=122`. -/
def ChunkType.isValidAscii (c : ChunkType) : Bool :=
  c.bytes.all fun i => (65 ≤ i && i ≤ 90) || (97 ≤ i && i ≤ 122)

/-- Method `ChunkType::is_reserved_bit_valid`: `(self.2 >> 5) & 1 == 0`. -/
def ChunkType.isReservedBitValid (c : ChunkType) : Bool :=
  (c.b2 >>> 5) &&& 1 == 0

/-- Method `ChunkType::is_valid`. -/
def ChunkType.isValid (c : ChunkType) : Bool :=
  c.isValidAscii && c.isReservedBitValid

/-- Trait impl `TryFrom<[u8; 4]> for ChunkType`; the four array entries are
passed as four byte arguments. -/
def ChunkType.tryFrom (v0 v1 v2 v3 : Nat) : Except PngError ChunkType :=
  let chunk : ChunkType := ⟨v0, v1, v2, v3⟩
  if chunk.isValid then .ok chunk else .error .invalidChunkType

/-- UTF-8 encoding of one character, as Rust `String::as_bytes` produces it. -/
def utf8EncodeChar (c : Char) : List Nat :=
  if c.toNat < 0x80 then [c.toNat]
  else if c.toNat < 0x800 then
    [0xC0 + c.toNat / 0x40, 0x80 + c.toNat % 0x40]
  else if c.toNat < 0x10000 then
    [0xE0 + c.toNat / 0x1000, 0x80 + c.toNat / 0x40 % 0x40,
      0x80 + c.toNat % 0x40]
  else
    [0xF0 + c.toNat / 0x40000, 0x80 + c.toNat / 0x1000 % 0x40,
      0x80 + c.toNat / 0x40 % 0x40, 0x80 + c.toNat % 0x40]

/-- UTF-8 byte sequence of a string (Rust `str::as_bytes`); strings are
modelled as their character lists. -/
def strBytes (s : List Char) : List Nat :=
  s.flatMap utf8EncodeChar

/-- Trait impl `FromStr for ChunkType`: reject unless the byte length is
exactly 4, then reject unless `is_valid_ascii` (the reserved bit is not
checked on this path). -/
def ChunkType.fromStr (s : List Char) : Except PngError ChunkType :=
  if (strBytes s).length ≠ 4 then .error .inputNotFourBytes
  else if (ChunkType.mk ((strBytes s).getD 0 0) ((strBytes s).getD 1 0)
      ((strBytes s).getD 2 0) ((strBytes s).getD 3 0)).isValidAscii then
    .ok (ChunkType.mk ((strBytes s).getD 0 0) ((strBytes s).getD 1 0)
      ((strBytes s).getD 2 0) ((strBytes s).getD 3 0))
  else .error .invalidAscii

/-- Trait impl `Display for ChunkType`: each byte printed as `u8 as char`. -/
def ChunkType.toText (c : ChunkType) : List Char :=
  [Char.ofNat c.b0, Char.ofNat c.b1, Char.ofNat c.b2, Char.ofNat c.b3]

/-! ## Chunk (`src/chunk.rs`) -/

/-- The struct `Chunk`. -/
structure Chunk where
  length : Nat
  chunk_type : ChunkType
  data : List Nat
  crc : Nat
deriving DecidableEq, Repr

/-- Constructor `Chunk::new`: `length` is `data.len() as u32` (hence the
`% 2 ^ 32`), `crc` is the checksum of the type bytes followed by the data. -/
def Chunk.new (chunk_type : ChunkType) (data : List Nat) : Chunk :=
  { length := data.length % 2 ^ 32
    chunk_type := chunk_type
    data := data
    crc := crc32Checksum (chunk_type.bytes ++ data) }

/-- Method `Chunk::as_bytes`: big-endian length, type bytes, data, big-endian
crc. -/
def Chunk.asBytes (c : Chunk) : List Nat :=
  u32ToBeBytes c.length ++ c.chunk_type.bytes ++ c.data ++ u32ToBeBytes c.crc

/-- Slice `chunk_data[0..4]` read as a big-endian u32 (the declared data
length). -/
def declaredLength (chunk_data : List Nat) : Nat :=
  u32FromBeBytes (chunk_data.take 4)

/-- Slice `chunk_data[4..8]`: the four chunk-type bytes. -/
def typeBytesOf (chunk_data : List Nat) : List Nat :=
  (chunk_data.drop 4).take 4

/-- Slice `chunk_data[8..8 + length]`: the message bytes. -/
def messageOf (chunk_data : List Nat) : List Nat :=
  (chunk_data.drop 8).take (declaredLength chunk_data)

/-- Slice `chunk_data[8 + length..12 + length]` read as a big-endian u32 (the
stored crc). -/
def storedCrcOf (chunk_data : List Nat) : Nat :=
  u32FromBeBytes ((chunk_data.drop (8 + declaredLength chunk_data)).take 4)

/-- The four type bytes of the input, assembled as the `[u8; 4]` value the
source passes to `ChunkType::try_from`. -/
def chunkTypeOf (chunk_data : List Nat) : ChunkType :=
  ⟨(typeBytesOf chunk_data).getD 0 0, (typeBytesOf chunk_data).getD 1 0,
    (typeBytesOf chunk_data).getD 2 0, (typeBytesOf chunk_data).getD 3 0⟩

/-- Trait impl `TryFrom<&[u8]> for Chunk`.  The source bails out only when the
input is shorter than 12 bytes; the message slice `[8..8 + length]` and the
crc slice `[8 + length..12 + length]` panic (in that order) when the declared
length overruns the input, and an invalid chunk type hits
`.expect("Cannot convert")`, which also panics. -/
def Chunk.tryFrom (chunk_data : List Nat) : Except PngError Chunk :=
  if chunk_data.length < 12 then .error .tooShort
  else if chunk_data.length < 8 + declaredLength chunk_data then
    .error (.rustPanic "range end index out of range")
  else if chunk_data.length < 12 + declaredLength chunk_data then
    .error (.rustPanic "range end index out of range")
  else
    match ChunkType.tryFrom (chunkTypeOf chunk_data).b0 (chunkTypeOf chunk_data).b1
        (chunkTypeOf chunk_data).b2 (chunkTypeOf chunk_data).b3 with
    | .error _ => .error (.rustPanic "Cannot convert")
    | .ok chunk_type =>
      if storedCrcOf chunk_data == (Chunk.new chunk_type (messageOf chunk_data)).crc
        then .ok (Chunk.new chunk_type (messageOf chunk_data))
        else .error .crcMismatch

/-! ## Container (`src/png.rs`) -/

/-- Modelled from the spec: the container source file `png.rs` is declared in
`lib.rs` (`mod png;`) and used by `commands.rs` (`Png::try_from`,
`append_chunk`, `chunk_by_type`, `remove_chunk`, `as_bytes`, `chunks`) but is
not present under `src/`; per the spec the container holds an ordered sequence
of chunk records behind the fixed 8-byte signature. -/
structure Png where
  chunks : List Chunk
deriving DecidableEq, Repr

/-- Modelled from the spec: `append(record)` appends to the end of the ordered
sequence unconditionally and never fails. -/
def Png.appendChunk (p : Png) (chunk : Chunk) : Png :=
  ⟨p.chunks ++ [chunk]⟩

/-- Modelled from the spec: `findByType(typeText)` is a linear scan returning
the first record whose type's textual form equals the key, or "not found". -/
def Png.chunkByType (p : Png) (t : List Char) : Option Chunk :=
  p.chunks.find? fun c => c.chunk_type.toText == t

/-- Linear scan removing the first chunk whose type text matches the key;
returns the removed chunk and the remaining list. -/
def removeFirst : List Chunk → List Char → Option (Chunk × List Chunk)
  | [], _ => none
  | c :: cs, t =>
    if c.chunk_type.toText == t then some (c, cs)
    else match removeFirst cs t with
      | some (r, rest) => some (r, c :: rest)
      | none => none

/-- Modelled from the spec: `removeByType(typeText)` removes and returns the
first matching record, or fails with `NotFound`. -/
def Png.removeChunk (p : Png) (t : List Char) : Except PngError (Chunk × Png) :=
  match removeFirst p.chunks t with
  | some (c, rest) => .ok (c, ⟨rest⟩)
  | none => .error .notFound

/-! ## Concrete values from the source's test suite -/

/-- The chunk type "RuSt" of the source's tests, bytes `[82, 117, 83, 116]`. -/
def rustChunkType : ChunkType := ⟨82, 117, 83, 116⟩

/-- The test payload bytes of "This is where your secret message will be!". -/
def secretMessage : List Nat :=
  "This is where your secret message will be!".data.map Char.toNat

/-- Spec-side predicate: the byte is an ASCII letter (A-Z or a-z). -/
def letterByte (b : Nat) : Prop :=
  (65 ≤ b ∧ b ≤ 90) ∨ (97 ≤ b ∧ b ≤ 122)

instance (b : Nat) : Decidable (letterByte b) := by
  unfold letterByte; exact inferInstance

/-! ## Helper lemmas -/

/-- Unfolding of strict chunk-type validity into the spec's wording. -/
theorem chunkType_isValid_iff (t : ChunkType) :
    t.isValid = true ↔
      ((∀ b ∈ t.bytes, letterByte b) ∧ t.b2 / 2 ^ 5 % 2 = 0) := by
  simp [ChunkType.isValid, ChunkType.isValidAscii, ChunkType.isReservedBitValid,
    ChunkType.bytes, letterByte, Nat.shiftRight_eq_div_pow, Nat.and_one_is_mod]

/-- A list of length 4 is exactly the list of its four entries. -/
theorem list_eq_four : ∀ (xs : List Nat), xs.length = 4 →
    xs = [xs.getD 0 0, xs.getD 1 0, xs.getD 2 0, xs.getD 3 0]
  | [], h => by simp at h
  | [_], h => by simp at h
  | [_, _], h => by simp at h
  | [_, _, _], h => by simp at h
  | [_, _, _, _], _ => rfl
  | _ :: _ :: _ :: _ :: _ :: _, h => by simp at h

/-- Reading back the big-endian bytes of a u32 value returns the value. -/
theorem u32FromBeBytes_toBe (n : Nat) (h : n < 2 ^ 32) :
    u32FromBeBytes (u32ToBeBytes n) = n := by
  simp only [u32ToBeBytes, u32FromBeBytes]
  omega

/-- One CRC bit step keeps the state below `2 ^ 32`. -/
theorem crcBitStep_lt (c : Nat) (h : c < 2 ^ 32) : crcBitStep c < 2 ^ 32 := by
  unfold crcBitStep
  split
  · exact Nat.xor_lt_two_pow (by omega) (by norm_num [crcPoly])
  · omega

/-- One CRC byte step keeps the state below `2 ^ 32`. -/
theorem crcByteStep_lt (c b : Nat) (hc : c < 2 ^ 32) (hb : b < 256) :
    crcByteStep c b < 2 ^ 32 := by
  unfold crcByteStep
  have h0 : Nat.xor c b < 2 ^ 32 := Nat.xor_lt_two_pow hc (by omega)
  exact crcBitStep_lt _ (crcBitStep_lt _ (crcBitStep_lt _ (crcBitStep_lt _
    (crcBitStep_lt _ (crcBitStep_lt _ (crcBitStep_lt _ (crcBitStep_lt _ h0)))))))

/-- The CRC fold keeps the state below `2 ^ 32` on byte inputs. -/
theorem foldl_crc_lt : ∀ (data : List Nat) (init : Nat),
    (∀ b ∈ data, b < 256) → init < 2 ^ 32 →
      data.foldl crcByteStep init < 2 ^ 32
  | [], _, _, hi => by simpa using hi
  | x :: xs, init, h, hi => by
    simp only [List.foldl_cons]
    exact foldl_crc_lt xs _ (fun b hb => h b (by simp [hb]))
      (crcByteStep_lt init x hi (h x (by simp)))

/-- The checksum of a byte list is a u32 value. -/
theorem crc32Checksum_lt (data : List Nat) (h : ∀ b ∈ data, b < 256) :
    crc32Checksum data < 2 ^ 32 := by
  unfold crc32Checksum
  exact Nat.xor_lt_two_pow (foldl_crc_lt data _ h (by norm_num)) (by norm_num)

/-- When the input is long enough, `Chunk::try_from` reaches the
type-conversion and crc-comparison stage. -/
theorem chunk_tryFrom_of_le (l : List Nat)
    (h : 12 + declaredLength l ≤ l.length) :
    Chunk.tryFrom l =
      match ChunkType.tryFrom (chunkTypeOf l).b0 (chunkTypeOf l).b1
          (chunkTypeOf l).b2 (chunkTypeOf l).b3 with
      | .error _ => .error (.rustPanic "Cannot convert")
      | .ok chunk_type =>
        if storedCrcOf l == (Chunk.new chunk_type (messageOf l)).crc
          then .ok (Chunk.new chunk_type (messageOf l))
          else .error .crcMismatch := by
  unfold Chunk.tryFrom
  rw [if_neg (by omega), if_neg (by omega), if_neg (by omega)]

/-- When the input is long enough and its type bytes are strictly valid,
`Chunk::try_from` reduces to the crc comparison. -/
theorem chunk_tryFrom_eq (l : List Nat)
    (h : 12 + declaredLength l ≤ l.length)
    (ht : (chunkTypeOf l).isValid = true) :
    Chunk.tryFrom l =
      if storedCrcOf l == (Chunk.new (chunkTypeOf l) (messageOf l)).crc
        then .ok (Chunk.new (chunkTypeOf l) (messageOf l))
        else .error .crcMismatch := by
  rw [chunk_tryFrom_of_le l h]
  have htf : ChunkType.tryFrom (chunkTypeOf l).b0 (chunkTypeOf l).b1
      (chunkTypeOf l).b2 (chunkTypeOf l).b3 = .ok (chunkTypeOf l) := by
    unfold ChunkType.tryFrom
    rw [if_pos ht]
  rw [htf]

/-- The type-byte slice of an input of at least 8 bytes has length 4. -/
theorem typeBytesOf_length (l : List Nat) (h : 8 ≤ l.length) :
    (typeBytesOf l).length = 4 := by
  simp only [typeBytesOf, List.length_take, List.length_drop]
  omega

/-- The bytes of the assembled chunk type are the type-byte slice. -/
theorem chunkTypeOf_bytes (l : List Nat) (h : 8 ≤ l.length) :
    (chunkTypeOf l).bytes = typeBytesOf l := by
  have h4 := typeBytesOf_length l h
  conv_rhs => rw [list_eq_four _ h4]
  rfl

/-- Serialization reassociated for slice reasoning. -/
theorem asBytes_assoc (c : Chunk) :
    Chunk.asBytes c = u32ToBeBytes c.length
      ++ (c.chunk_type.bytes ++ (c.data ++ u32ToBeBytes c.crc)) := by
  unfold Chunk.asBytes
  rw [List.append_assoc, List.append_assoc]

/-- The declared-length field of a serialized chunk is its length field. -/
theorem declaredLength_asBytes (c : Chunk) (h : c.length < 2 ^ 32) :
    declaredLength (Chunk.asBytes c) = c.length := by
  rw [asBytes_assoc]
  unfold declaredLength
  rw [List.take_left' (by rfl)]
  exact u32FromBeBytes_toBe _ h

/-- The type-byte slice of a serialized chunk is the chunk's type bytes. -/
theorem typeBytesOf_asBytes (c : Chunk) :
    typeBytesOf (Chunk.asBytes c) = c.chunk_type.bytes := by
  rw [asBytes_assoc]
  unfold typeBytesOf
  rw [List.drop_left' (by rfl), List.take_left' (by rfl)]

/-- The assembled chunk type of a serialized chunk is the chunk's type. -/
theorem chunkTypeOf_asBytes (c : Chunk) :
    chunkTypeOf (Chunk.asBytes c) = c.chunk_type := by
  unfold chunkTypeOf
  rw [typeBytesOf_asBytes]
  rfl

/-- Dropping the 8 header bytes of a serialized chunk leaves data and crc. -/
theorem drop8_asBytes (c : Chunk) :
    (Chunk.asBytes c).drop 8 = c.data ++ u32ToBeBytes c.crc := by
  unfold Chunk.asBytes
  rw [List.append_assoc (u32ToBeBytes c.length ++ c.chunk_type.bytes),
    List.drop_left' (by rfl)]

/-- The message slice of a serialized chunk whose length field agrees with its
data is the data. -/
theorem messageOf_asBytes (c : Chunk) (hl : c.length = c.data.length)
    (h32 : c.length < 2 ^ 32) :
    messageOf (Chunk.asBytes c) = c.data := by
  unfold messageOf
  rw [declaredLength_asBytes c h32, drop8_asBytes, hl, List.take_left' rfl]

/-- The stored-crc slice of a serialized chunk whose length field agrees with
its data is its crc field. -/
theorem storedCrcOf_asBytes (c : Chunk) (hl : c.length = c.data.length)
    (h32 : c.length < 2 ^ 32) (hcrc : c.crc < 2 ^ 32) :
    storedCrcOf (Chunk.asBytes c) = c.crc := by
  unfold storedCrcOf
  rw [declaredLength_asBytes c h32]
  unfold Chunk.asBytes
  rw [List.drop_left' (show ((u32ToBeBytes c.length ++ c.chunk_type.bytes)
      ++ c.data).length = 8 + c.length by
    simp [u32ToBeBytes, ChunkType.bytes]
    omega)]
  exact u32FromBeBytes_toBe _ hcrc

/-- The length of a serialized chunk is 12 plus the data length. -/
theorem length_asBytes (c : Chunk) :
    (Chunk.asBytes c).length = 12 + c.data.length := by
  simp [Chunk.asBytes, u32ToBeBytes, ChunkType.bytes]
  omega

/-! ## Claim C3 -/

/-- Claim C3: for every 4-byte array, `ChunkType::try_from` succeeds, returning
the identifier holding exactly those bytes, iff all four bytes are ASCII
letters and bit 5 of the third byte is 0; otherwise it fails with
`InvalidChunkType`. -/
theorem chunkType_tryFrom_iff (b0 b1 b2 b3 : Nat) (h0 : b0 < 256)
    (h1 : b1 < 256) (h2 : b2 < 256) (h3 : b3 < 256) :
    (ChunkType.tryFrom b0 b1 b2 b3 = .ok ⟨b0, b1, b2, b3⟩ ↔
      ((∀ b ∈ [b0, b1, b2, b3], letterByte b) ∧ b2 / 2 ^ 5 % 2 = 0)) ∧
    (ChunkType.tryFrom b0 b1 b2 b3 = .error .invalidChunkType ↔
      ¬ ((∀ b ∈ [b0, b1, b2, b3], letterByte b) ∧ b2 / 2 ^ 5 % 2 = 0)) := by
  have hiff := chunkType_isValid_iff ⟨b0, b1, b2, b3⟩
  simp only [ChunkType.bytes] at hiff
  unfold ChunkType.tryFrom
  by_cases hv : (ChunkType.mk b0 b1 b2 b3).isValid = true
  · rw [if_pos hv]
    have hc := hiff.mp hv
    exact ⟨⟨fun _ => hc, fun _ => rfl⟩,
      ⟨fun h => Except.noConfusion h, fun h => absurd hc h⟩⟩
  · rw [if_neg hv]
    have hc : ¬ ((∀ b ∈ [b0, b1, b2, b3], letterByte b) ∧ b2 / 2 ^ 5 % 2 = 0) :=
      fun hcc => hv (hiff.mpr hcc)
    exact ⟨⟨fun h => Except.noConfusion h, fun hcc => absurd hcc hc⟩,
      ⟨fun _ => hc, fun _ => rfl⟩⟩

/-- Witness for C3 at the test bytes of "RuSt". -/
theorem chunkType_tryFrom_iff_witness :
    ChunkType.tryFrom 82 117 83 116 = .ok ⟨82, 117, 83, 116⟩ :=
  (chunkType_tryFrom_iff 82 117 83 116 (by decide) (by decide) (by decide)
    (by decide)).1.mpr (by decide)

/-! ## Claim C2 -/

/-- Claim C2 counterexample: at a data vector of `2 ^ 32` bytes the stored
length, produced by the truncating `data.len() as u32` cast in `Chunk::new`,
is `0` and not the data's byte length. -/
theorem chunk_new_length_counterexample :
    ¬ ((Chunk.new rustChunkType (List.replicate (2 ^ 32) 0)).length
        = (List.replicate (2 ^ 32) (0 : Nat)).length) := by
  intro h
  have hL : ∀ (t : ChunkType) (d : List Nat),
      (Chunk.new t d).length = d.length % 2 ^ 32 := fun _ _ => rfl
  rw [hL, List.length_replicate, Nat.mod_self] at h
  exact absurd h (by norm_num)

set_option maxRecDepth 1000000 in
/-- Claim C2 (amended): `Chunk::new` always succeeds; its length field is the
data's byte length reduced modulo `2 ^ 32` (hence equal to the byte length for
all data shorter than `2 ^ 32` bytes), its crc is CRC-32/ISO-HDLC over the
type bytes followed by the data, and on the test vector (type "RuSt", data
"This is where your secret message will be!") the length is 42 and the crc is
2882656334. -/
theorem chunk_new_spec :
    (∀ (t : ChunkType) (d : List Nat),
        (Chunk.new t d).length = d.length % 2 ^ 32 ∧
          (Chunk.new t d).crc = crc32Checksum (t.bytes ++ d)) ∧
      (Chunk.new rustChunkType secretMessage).length = 42 ∧
      (Chunk.new rustChunkType secretMessage).crc = 2882656334 := by
  exact ⟨fun t d => ⟨rfl, rfl⟩, by decide, by decide⟩

/-! ## Claim C4 -/

/-- Claim C4: `Chunk::try_from` returns the `TooShort` error for every input
of fewer than 12 bytes; but on a 12-byte input whose declared length field (1)
exceeds the bytes remaining after the header and crc (0), the source panics in
the out-of-bounds message slice instead of returning `TooShort`. -/
theorem chunk_tryFrom_tooShort :
    (∀ chunk_data : List Nat, chunk_data.length < 12 →
        Chunk.tryFrom chunk_data = .error .tooShort) ∧
      Chunk.tryFrom [0, 0, 0, 1, 82, 117, 83, 116, 0, 0, 0, 0]
        = .error (.rustPanic "range end index out of range") := by
  refine ⟨fun l h => ?_, rfl⟩
  unfold Chunk.tryFrom
  rw [if_pos h]

/-- Witness for C4's universally quantified half at the empty input. -/
theorem chunk_tryFrom_tooShort_witness :
    Chunk.tryFrom [] = .error .tooShort :=
  chunk_tryFrom_tooShort.1 [] (by decide)

/-! ## Claim C5 -/

/-- Claim C5: on a 12-byte input with declared length 0 and type bytes "Rust"
(ASCII letters, but reserved bit of the third byte set, hence not a valid
chunk type), `Chunk::try_from` panics in `.expect("Cannot convert")` instead
of returning the propagated `InvalidChunkType` error. -/
theorem chunk_tryFrom_invalid_type_panics :
    Chunk.tryFrom [0, 0, 0, 0, 82, 117, 115, 116, 0, 0, 0, 0]
      = .error (.rustPanic "Cannot convert") := rfl

/-! ## Claim C1 -/

/-- Claim C1 counterexample: a record over a data vector of `2 ^ 32` bytes
serializes with a truncated length field of `0`, so parsing its serialization
does not return the record. -/
theorem chunk_roundtrip_counterexample :
    Chunk.tryFrom (Chunk.asBytes (Chunk.new rustChunkType
        (List.replicate (2 ^ 32) 0)))
      ≠ .ok (Chunk.new rustChunkType (List.replicate (2 ^ 32) 0)) := by
  intro hcontra
  have hgen : ∀ (t : ChunkType) (d : List Nat),
      (Chunk.new t d).length = d.length % 2 ^ 32 := fun _ _ => rfl
  have hclen : (Chunk.new rustChunkType
      (List.replicate (2 ^ 32) (0 : Nat))).length = 0 := by
    rw [hgen, List.length_replicate, Nat.mod_self]
  have h32 : (Chunk.new rustChunkType
      (List.replicate (2 ^ 32) (0 : Nat))).length < 2 ^ 32 := by
    rw [hclen]; norm_num
  have hle : 12 + declaredLength (Chunk.asBytes (Chunk.new rustChunkType
        (List.replicate (2 ^ 32) 0)))
      ≤ (Chunk.asBytes (Chunk.new rustChunkType
        (List.replicate (2 ^ 32) 0))).length := by
    rw [declaredLength_asBytes _ h32, length_asBytes, hclen]
    exact Nat.add_le_add_left (Nat.zero_le _) 12
  have hct : chunkTypeOf (Chunk.asBytes (Chunk.new rustChunkType
        (List.replicate (2 ^ 32) 0))) = rustChunkType :=
    chunkTypeOf_asBytes _
  have hmsg : messageOf (Chunk.asBytes (Chunk.new rustChunkType
        (List.replicate (2 ^ 32) 0))) = [] := by
    unfold messageOf
    rw [declaredLength_asBytes _ h32, hclen, List.take_zero]
  rw [chunk_tryFrom_eq _ hle (by rw [hct]; decide), hct, hmsg] at hcontra
  by_cases hcmp : (storedCrcOf (Chunk.asBytes (Chunk.new rustChunkType
        (List.replicate (2 ^ 32) 0)))
      == (Chunk.new rustChunkType []).crc) = true
  · rw [if_pos hcmp] at hcontra
    have hdat := congrArg Chunk.data (Except.ok.inj hcontra)
    have hlen2 := congrArg List.length hdat
    have hz : (Chunk.new rustChunkType ([] : List Nat)).data.length = 0 := rfl
    have hbig : (Chunk.new rustChunkType
        (List.replicate (2 ^ 32) (0 : Nat))).data.length = 2 ^ 32 := by
      show (List.replicate (2 ^ 32) (0 : Nat)).length = 2 ^ 32
      exact List.length_replicate _ _
    rw [hz, hbig] at hlen2
    exact absurd hlen2 (by norm_num)
  · rw [if_neg hcmp] at hcontra
    exact Except.noConfusion hcontra

/-- Claim C1 (amended): for every strictly valid chunk type and every data
byte vector shorter than `2 ^ 32` bytes, parsing the serialization of the
constructed record succeeds and returns the record itself (hence equal type,
data, crc and length). -/
theorem chunk_roundtrip (t : ChunkType) (d : List Nat) (ht : t.isValid = true)
    (hlen : d.length < 2 ^ 32) (hbytes : ∀ b ∈ d, b < 256) :
    Chunk.tryFrom (Chunk.asBytes (Chunk.new t d)) = .ok (Chunk.new t d) := by
  have hclen : (Chunk.new t d).length = d.length := Nat.mod_eq_of_lt hlen
  have ht256 : ∀ b ∈ t.bytes, b < 256 := by
    have hv := (chunkType_isValid_iff t).mp ht
    intro b hb
    rcases hv.1 b hb with ⟨_, h2⟩ | ⟨_, h2⟩ <;> omega
  have hcrclt : (Chunk.new t d).crc < 2 ^ 32 := by
    show crc32Checksum (t.bytes ++ d) < 2 ^ 32
    apply crc32Checksum_lt
    intro b hb
    rcases List.mem_append.mp hb with h | h
    · exact ht256 b h
    · exact hbytes b h
  have h32 : (Chunk.new t d).length < 2 ^ 32 := by rw [hclen]; exact hlen
  have hle : 12 + declaredLength (Chunk.asBytes (Chunk.new t d))
      ≤ (Chunk.asBytes (Chunk.new t d)).length := by
    rw [declaredLength_asBytes _ h32, length_asBytes, hclen]
    exact le_rfl
  have hct : chunkTypeOf (Chunk.asBytes (Chunk.new t d)) = t :=
    chunkTypeOf_asBytes (Chunk.new t d)
  have hmsg : messageOf (Chunk.asBytes (Chunk.new t d)) = d :=
    messageOf_asBytes (Chunk.new t d) (by rw [hclen]; rfl) h32
  have hstored : storedCrcOf (Chunk.asBytes (Chunk.new t d))
      = (Chunk.new t d).crc :=
    storedCrcOf_asBytes (Chunk.new t d) (by rw [hclen]; rfl) h32 hcrclt
  rw [chunk_tryFrom_eq _ hle (by rw [hct]; exact ht), hct, hmsg, hstored]
  rw [if_pos (beq_self_eq_true ((Chunk.new t d).crc))]

/-- Witness for C1 at the source's test chunk (type "RuSt" and the 42-byte
secret message). -/
theorem chunk_roundtrip_witness :
    Chunk.tryFrom (Chunk.asBytes (Chunk.new rustChunkType secretMessage))
      = .ok (Chunk.new rustChunkType secretMessage) :=
  chunk_roundtrip rustChunkType secretMessage (by decide) (by decide)
    (by decide)

/-! ## Claim C6 -/

/-- The serialized test chunk of the source's tests, with its valid crc. -/
def goodStream : List Nat :=
  u32ToBeBytes 42 ++ rustChunkType.bytes ++ secretMessage
    ++ u32ToBeBytes 2882656334

/-- The serialized test chunk with the corrupted crc `2882656333` used in the
source's `test_invalid_chunk_from_bytes`. -/
def badCrcStream : List Nat :=
  u32ToBeBytes 42 ++ rustChunkType.bytes ++ secretMessage
    ++ u32ToBeBytes 2882656333

/-- Claim C6: for an input of at least `12 + declared length` bytes whose type
bytes form a strictly valid chunk type, `Chunk::try_from` recomputes the
checksum over the type bytes followed by the message bytes and fails with
`CrcMismatch` exactly when the recomputed value differs from the stored crc
field; on equality it returns the parsed record. -/
theorem chunk_tryFrom_crc_check (l : List Nat)
    (hlen : 12 + declaredLength l ≤ l.length)
    (ht : (chunkTypeOf l).isValid = true) :
    (Chunk.tryFrom l = .error .crcMismatch ↔
      crc32Checksum (typeBytesOf l ++ messageOf l) ≠ storedCrcOf l) ∧
    (crc32Checksum (typeBytesOf l ++ messageOf l) = storedCrcOf l →
      Chunk.tryFrom l = .ok (Chunk.new (chunkTypeOf l) (messageOf l))) := by
  have hcrc : (Chunk.new (chunkTypeOf l) (messageOf l)).crc
      = crc32Checksum (typeBytesOf l ++ messageOf l) := by
    show crc32Checksum ((chunkTypeOf l).bytes ++ messageOf l) = _
    rw [chunkTypeOf_bytes l (by omega)]
  rw [chunk_tryFrom_eq l hlen ht, hcrc]
  by_cases hc : crc32Checksum (typeBytesOf l ++ messageOf l) = storedCrcOf l
  · rw [if_pos (by rw [hc]; exact beq_self_eq_true _)]
    exact ⟨⟨fun h => Except.noConfusion h, fun hne => absurd hc hne⟩,
      fun _ => rfl⟩
  · rw [if_neg (fun hbeq => hc (beq_iff_eq.mp hbeq).symm)]
    exact ⟨⟨fun _ => hc, fun _ => rfl⟩, fun heq => absurd heq hc⟩

set_option maxRecDepth 1000000 in
/-- Witness for C6 at the corrupted-crc vector of the source's tests. -/
theorem chunk_tryFrom_crc_check_witness :
    Chunk.tryFrom badCrcStream = .error .crcMismatch :=
  (chunk_tryFrom_crc_check badCrcStream (by decide) (by decide)).1.mpr
    (by decide)

/-! ## Claim C9 -/

/-- Claim C9: `Chunk::try_from` depends only on the first `12 + declared
length` bytes of its input; appending any suffix to an input at least that
long leaves the result unchanged. -/
theorem chunk_tryFrom_ignores_trailing (b s : List Nat)
    (h : 12 + declaredLength b ≤ b.length) :
    Chunk.tryFrom (b ++ s) = Chunk.tryFrom b := by
  have h4 : (4 : Nat) ≤ b.length := by omega
  have hdecl : declaredLength (b ++ s) = declaredLength b := by
    unfold declaredLength
    rw [List.take_append_of_le_length h4]
  have h' : 12 + declaredLength (b ++ s) ≤ (b ++ s).length := by
    rw [hdecl, List.length_append]
    omega
  have htb : typeBytesOf (b ++ s) = typeBytesOf b := by
    unfold typeBytesOf
    rw [List.drop_append_of_le_length h4, List.take_append_of_le_length (by
      simp only [List.length_drop]
      omega)]
  have hmsg : messageOf (b ++ s) = messageOf b := by
    unfold messageOf
    rw [hdecl, List.drop_append_of_le_length (by omega),
      List.take_append_of_le_length (by
        simp only [List.length_drop]
        omega)]
  have hcrc : storedCrcOf (b ++ s) = storedCrcOf b := by
    unfold storedCrcOf
    rw [hdecl, List.drop_append_of_le_length (by omega),
      List.take_append_of_le_length (by
        simp only [List.length_drop]
        omega)]
  rw [chunk_tryFrom_of_le (b ++ s) h', chunk_tryFrom_of_le b h,
    show chunkTypeOf (b ++ s) = chunkTypeOf b from by
      unfold chunkTypeOf
      rw [htb],
    hmsg, hcrc]

/-- Witness for C9: a trailing zero byte after the serialized test chunk
leaves the parse result unchanged. -/
theorem chunk_tryFrom_ignores_trailing_witness :
    Chunk.tryFrom (goodStream ++ [0]) = Chunk.tryFrom goodStream :=
  chunk_tryFrom_ignores_trailing goodStream [0] (by decide)

/-! ## Claims C7 and C10 -/

/-- The UTF-8 encoding of an ASCII character is its single code byte. -/
theorem utf8EncodeChar_ascii (c : Char) (h : c.toNat < 0x80) :
    utf8EncodeChar c = [c.toNat] := by
  unfold utf8EncodeChar
  rw [if_pos h]

/-- The UTF-8 encoding of a character is never empty. -/
theorem utf8EncodeChar_ne_nil (c : Char) : utf8EncodeChar c ≠ [] := by
  unfold utf8EncodeChar
  split
  · simp
  · split
    · simp
    · split <;> simp

/-- Every byte of the UTF-8 encoding of a non-ASCII character is at least
`0x80`. -/
theorem utf8EncodeChar_ge (c : Char) (h : 0x80 ≤ c.toNat) :
    ∀ b ∈ utf8EncodeChar c, 0x80 ≤ b := by
  intro b hb
  unfold utf8EncodeChar at hb
  split at hb
  · omega
  · split at hb
    · simp only [List.mem_cons, List.not_mem_nil, or_false] at hb
      rcases hb with rfl | rfl <;> omega
    · split at hb
      · simp only [List.mem_cons, List.not_mem_nil, or_false] at hb
        rcases hb with rfl | rfl | rfl <;> omega
      · simp only [List.mem_cons, List.not_mem_nil, or_false] at hb
        rcases hb with rfl | rfl | rfl | rfl <;> omega

/-- On all-ASCII strings, the UTF-8 bytes are the character codes. -/
theorem strBytes_ascii : ∀ (s : List Char), (∀ c ∈ s, c.toNat < 0x80) →
    strBytes s = s.map Char.toNat
  | [], _ => rfl
  | c :: cs, h => by
    simp only [strBytes, List.flatMap_cons, List.map_cons]
    rw [utf8EncodeChar_ascii c (h c (by simp))]
    have ih := strBytes_ascii cs (fun d hd => h d (by simp [hd]))
    simp only [strBytes] at ih
    rw [ih]
    rfl

/-- If every byte of a string's UTF-8 form is at most 122, every character of
the string is ASCII. -/
theorem chars_ascii_of_le (s : List Char)
    (h : ∀ b ∈ strBytes s, b ≤ 122) : ∀ c ∈ s, c.toNat < 0x80 := by
  intro c hc
  by_contra hge
  push_neg at hge
  obtain ⟨b, hb⟩ : ∃ b, b ∈ utf8EncodeChar c := by
    cases hu : utf8EncodeChar c with
    | nil => exact absurd hu (utf8EncodeChar_ne_nil c)
    | cons x xs => exact ⟨x, by simp [hu]⟩
  have hmem : b ∈ strBytes s := List.mem_flatMap.mpr ⟨c, hc, hb⟩
  have h1 := h b hmem
  have h2 := utf8EncodeChar_ge c hge b hb
  omega

/-- Evaluation of `from_str` once the UTF-8 byte form is a 4-byte list. -/
theorem fromStr_of_strBytes (s : List Char) (b0 b1 b2 b3 : Nat)
    (h : strBytes s = [b0, b1, b2, b3]) :
    ChunkType.fromStr s =
      if (ChunkType.mk b0 b1 b2 b3).isValidAscii
        then .ok (ChunkType.mk b0 b1 b2 b3)
        else .error .invalidAscii := by
  unfold ChunkType.fromStr
  rw [h, if_neg (by simp)]
  rfl

/-- Success of `from_str` in terms of the UTF-8 byte form. -/
theorem fromStr_ok_iff_bytes (s : List Char) :
    (∃ t, ChunkType.fromStr s = .ok t) ↔
      ((strBytes s).length = 4 ∧ ∀ b ∈ strBytes s, letterByte b) := by
  by_cases h4 : (strBytes s).length = 4
  · have hlist := list_eq_four (strBytes s) h4
    rw [fromStr_of_strBytes s _ _ _ _ hlist]
    by_cases hv : (ChunkType.mk ((strBytes s).getD 0 0) ((strBytes s).getD 1 0)
        ((strBytes s).getD 2 0) ((strBytes s).getD 3 0)).isValidAscii = true
    · rw [if_pos hv]
      simp only [ChunkType.isValidAscii, ChunkType.bytes, List.all_cons,
        List.all_nil, Bool.and_true, Bool.and_eq_true, Bool.or_eq_true,
        decide_eq_true_eq] at hv
      refine iff_of_true ⟨_, rfl⟩ ⟨h4, fun b hb => ?_⟩
      have hb' : b ∈ [(strBytes s).getD 0 0, (strBytes s).getD 1 0,
          (strBytes s).getD 2 0, (strBytes s).getD 3 0] := by
        rw [← hlist]; exact hb
      simp only [List.mem_cons, List.not_mem_nil, or_false] at hb'
      unfold letterByte
      rcases hb' with rfl | rfl | rfl | rfl
      exacts [hv.1, hv.2.1, hv.2.2.1, hv.2.2.2]
    · rw [if_neg hv]
      refine iff_of_false (fun hex => Except.noConfusion hex.choose_spec)
        (fun hcon => hv ?_)
      obtain ⟨-, hletters⟩ := hcon
      simp only [ChunkType.isValidAscii, ChunkType.bytes, List.all_cons,
        List.all_nil, Bool.and_true, Bool.and_eq_true, Bool.or_eq_true,
        decide_eq_true_eq]
      have h0 : (strBytes s).getD 0 0 ∈ strBytes s := by rw [hlist]; simp
      have h1 : (strBytes s).getD 1 0 ∈ strBytes s := by rw [hlist]; simp
      have h2 : (strBytes s).getD 2 0 ∈ strBytes s := by rw [hlist]; simp
      have h3 : (strBytes s).getD 3 0 ∈ strBytes s := by rw [hlist]; simp
      have l0 := hletters _ h0
      have l1 := hletters _ h1
      have l2 := hletters _ h2
      have l3 := hletters _ h3
      unfold letterByte at l0 l1 l2 l3
      exact ⟨l0, l1, l2, l3⟩
  · constructor
    · rintro ⟨t, ht⟩
      unfold ChunkType.fromStr at ht
      rw [if_pos h4] at ht
      exact Except.noConfusion ht
    · rintro ⟨h4', -⟩
      exact absurd h4' h4

/-- Being four letter bytes and being four letter characters coincide. -/
theorem fourLetters_bytes_iff (s : List Char) :
    ((strBytes s).length = 4 ∧ ∀ b ∈ strBytes s, letterByte b) ↔
      (s.length = 4 ∧ ∀ c ∈ s, letterByte c.toNat) := by
  constructor
  · rintro ⟨h4, hl⟩
    have hascii : ∀ c ∈ s, c.toNat < 0x80 :=
      chars_ascii_of_le s (fun b hb => by
        rcases hl b hb with ⟨_, h2⟩ | ⟨_, h2⟩ <;> omega)
    have hmap := strBytes_ascii s hascii
    rw [hmap, List.length_map] at h4
    refine ⟨h4, fun c hc => ?_⟩
    have hmem : c.toNat ∈ strBytes s := by
      rw [hmap]
      exact List.mem_map_of_mem _ hc
    exact hl _ hmem
  · rintro ⟨h4, hl⟩
    have hascii : ∀ c ∈ s, c.toNat < 0x80 := fun c hc => by
      rcases hl c hc with ⟨_, h2⟩ | ⟨_, h2⟩ <;> omega
    have hmap := strBytes_ascii s hascii
    rw [hmap, List.length_map]
    refine ⟨h4, fun b hb => ?_⟩
    obtain ⟨c, hc, rfl⟩ := List.mem_map.mp hb
    exact hl c hc

/-- Claim C7: `ChunkType::from_str` succeeds exactly on strings of four ASCII
letter characters and fails otherwise; in particular the reserved bit is not
checked on this path, so the all-letter string "Rust" (third byte lowercase)
is accepted. -/
theorem chunkType_fromStr_iff (s : List Char) :
    ((∃ t, ChunkType.fromStr s = .ok t) ↔
      (s.length = 4 ∧ ∀ c ∈ s, letterByte c.toNat)) ∧
    ChunkType.fromStr "Rust".data = .ok ⟨82, 117, 115, 116⟩ :=
  ⟨(fromStr_ok_iff_bytes s).trans (fourLetters_bytes_iff s), rfl⟩

/-- Witness for C7 at the string "RuSt". -/
theorem chunkType_fromStr_iff_witness :
    ∃ t, ChunkType.fromStr "RuSt".data = .ok t :=
  (chunkType_fromStr_iff "RuSt".data).1.mpr (by decide)

/-- Claim C10: on every string of exactly four ASCII letter characters,
`ChunkType::from_str` succeeds and the resulting identifier's `Display` form
is the original string. -/
theorem chunkType_fromStr_toText (s : List Char) (h4 : s.length = 4)
    (hl : ∀ c ∈ s, letterByte c.toNat) :
    ∃ t, ChunkType.fromStr s = .ok t ∧ t.toText = s := by
  have hascii : ∀ c ∈ s, c.toNat < 0x80 := fun c hc => by
    rcases hl c hc with ⟨_, h2⟩ | ⟨_, h2⟩ <;> omega
  have hmap := strBytes_ascii s hascii
  rcases s with _ | ⟨a, s⟩
  · simp at h4
  rcases s with _ | ⟨b, s⟩
  · simp at h4
  rcases s with _ | ⟨c, s⟩
  · simp at h4
  rcases s with _ | ⟨d, s⟩
  · simp at h4
  rcases s with _ | ⟨e, s⟩
  · rw [fromStr_of_strBytes _ _ _ _ _ hmap]
    have hv : (ChunkType.mk a.toNat b.toNat c.toNat d.toNat).isValidAscii
        = true := by
      simp only [ChunkType.isValidAscii, ChunkType.bytes, List.all_cons,
        List.all_nil, Bool.and_true, Bool.and_eq_true, Bool.or_eq_true,
        decide_eq_true_eq]
      have la := hl a (by simp)
      have lb := hl b (by simp)
      have lc := hl c (by simp)
      have ld := hl d (by simp)
      unfold letterByte at la lb lc ld
      exact ⟨la, lb, lc, ld⟩
    rw [if_pos hv]
    refine ⟨_, rfl, ?_⟩
    show [Char.ofNat a.toNat, Char.ofNat b.toNat, Char.ofNat c.toNat,
      Char.ofNat d.toNat] = [a, b, c, d]
    rw [Char.ofNat_toNat, Char.ofNat_toNat, Char.ofNat_toNat,
      Char.ofNat_toNat]
  · simp at h4

/-- Witness for C10 at the string "RuSt". -/
theorem chunkType_fromStr_toText_witness :
    ∃ t, ChunkType.fromStr "RuSt".data = .ok t ∧ t.toText = "RuSt".data :=
  chunkType_fromStr_toText "RuSt".data (by decide) (by decide)

/-! ## Claim C8 -/

/-- Removing behind an all-mismatching prefix removes the appended record and
reassembles the prefix. -/
theorem removeFirst_append (t : List Char) (r : Chunk)
    (hr : (r.chunk_type.toText == t) = true) :
    ∀ (l : List Chunk), (∀ c ∈ l, (c.chunk_type.toText == t) = false) →
      removeFirst (l ++ [r]) t = some (r, l)
  | [], _ => by
    simp only [List.nil_append]
    unfold removeFirst
    rw [if_pos hr]
  | c :: cs, h => by
    simp only [List.cons_append]
    unfold removeFirst
    rw [if_neg (by rw [h c (by simp)]; simp),
      removeFirst_append t r hr cs (fun d hd => h d (by simp [hd]))]

/-- Claim C8 counterexample: in a container already holding a record of type
"RuSt", appending a second "RuSt" record with different data and then looking
the type up returns the pre-existing record, not the appended one. -/
theorem png_append_find_counterexample :
    (Png.appendChunk ⟨[Chunk.new rustChunkType []]⟩
        (Chunk.new rustChunkType [65])).chunkByType rustChunkType.toText
      ≠ some (Chunk.new rustChunkType [65]) := by
  decide

/-- Claim C8 (amended): in a container holding no record of type `t`,
appending a record of type `t` makes the lookup of `t` return exactly that
record; a subsequent removal by `t` succeeds, returns that record, and leaves
a container in which the lookup of `t` again returns not-found.  Appending is
unconditional, and duplicate chunk types are representable: appending the
record twice yields both copies in order. -/
theorem png_append_find_remove (p : Png) (r : Chunk) (t : List Char)
    (hr : r.chunk_type.toText = t)
    (hnone : p.chunkByType t = none) :
    (p.appendChunk r).chunkByType t = some r ∧
      (p.appendChunk r).removeChunk t = .ok (r, p) ∧
      p.chunkByType t = none ∧
      ((p.appendChunk r).appendChunk r).chunks = p.chunks ++ [r, r] := by
  have hbeq : (r.chunk_type.toText == t) = true := by
    rw [hr]
    exact beq_self_eq_true t
  have hnone' : p.chunks.find? (fun c => c.chunk_type.toText == t) = none :=
    hnone
  have hall : ∀ c ∈ p.chunks, (c.chunk_type.toText == t) = false := by
    intro c hc
    have hx := List.find?_eq_none.mp hnone' c hc
    cases hq : (c.chunk_type.toText == t)
    · rfl
    · exact absurd hq hx
  have happ : (p.appendChunk r).chunks = p.chunks ++ [r] := rfl
  refine ⟨?_, ?_, hnone, ?_⟩
  · show (p.appendChunk r).chunks.find? (fun c => c.chunk_type.toText == t)
      = some r
    rw [happ, List.find?_append, hnone', Option.none_or]
    exact List.find?_cons_of_pos [] hbeq
  · show (match removeFirst (p.appendChunk r).chunks t with
      | some (c, rest) => Except.ok (c, (⟨rest⟩ : Png))
      | none => Except.error PngError.notFound) = .ok (r, p)
    rw [happ, removeFirst_append t r hbeq p.chunks hall]
  · show (p.chunks ++ [r]) ++ [r] = p.chunks ++ [r, r]
    rw [List.append_assoc]
    rfl

/-- Witness for C8 on the empty container and the "RuSt" test record. -/
theorem png_append_find_remove_witness :
    (Png.appendChunk ⟨[]⟩ (Chunk.new rustChunkType [])).chunkByType
        rustChunkType.toText = some (Chunk.new rustChunkType []) :=
  (png_append_find_remove ⟨[]⟩ (Chunk.new rustChunkType [])
    rustChunkType.toText (by decide) (by decide)).1

end Pngme
